import Mathlib

/-!
Shallow embedding of `src/directory-monitor.py` (a directory monitor that
tracks in-flight files in a global dict `FILE_QUEUE` and polls their sizes
until they settle).

Modelling conventions:
* Timestamps (`datetime.datetime.now()`) and the polling interval
  (`timedelta(seconds = polling_time_secs)`) are natural numbers; the only
  operations the source performs on them are comparison and `now + interval`.
* File sizes (`os.path.getsize`) are natural numbers.  The filesystem is a
  parameter `fs : String → Option Nat`: `some n` means the path currently
  stats with size `n`, `none` means the stat raises (the file vanished).
  The Python source contains no try/except, so a failing stat propagates an
  exception; fallible operations therefore return `Except`, whose `error`
  payload carries the (unchanged) global map at the moment of the raise.
* The global dict `FILE_QUEUE` is an insertion-ordered association list
  `List (String × FileQueueItem)`; `setItem` is Python dict assignment
  (update in place preserving order, append if absent), `popItem` is
  `dict.pop` (the dict has at most one binding per key, so removing the
  first binding is exact), `lookupQ`/`containsKey` are `d[k]` / `k in d`.
* `os.path.basename` / `os.path.splitext` / `str.lower` are modelled for
  POSIX paths and ASCII case mapping, following CPython `posixpath`.
-/

set_option autoImplicit false

namespace DirectoryMonitor

/-- One entry of `FILE_QUEUE` (Python dataclass `FileQueueItem`). -/
structure FileQueueItem where
  file_path : String
  file_size : Nat
  file_name : String
  file_extention : String
  next_poll : Nat
  deriving Repr, DecidableEq

/-- The global staging map `FILE_QUEUE`, an insertion-ordered dict keyed by
path, modelled as an association list. -/
abbrev FileQueue := List (String × FileQueueItem)

/-- Python `d[k]` as an option: the value bound to the first occurrence of
the key. -/
def lookupQ : FileQueue → String → Option FileQueueItem
  | [], _ => none
  | (k, v) :: rest, key => if k = key then some v else lookupQ rest key

/-- Python `key in d`. -/
def containsKey (q : FileQueue) (key : String) : Bool :=
  (lookupQ q key).isSome

/-- Python `d[k] = v`: replace the binding in place if the key is present
(order preserved), otherwise append the new binding at the end. -/
def setItem : FileQueue → String → FileQueueItem → FileQueue
  | [], key, v => [(key, v)]
  | (k, w) :: rest, key, v =>
    if k = key then (key, v) :: rest else (k, w) :: setItem rest key v

/-- Python `d.pop(k)` on a dict (at most one binding per key): remove the
first binding of the key. -/
def popItem : FileQueue → String → FileQueue
  | [], _ => []
  | (k, w) :: rest, key =>
    if k = key then rest else (k, w) :: popItem rest key

/-- The keys of the map, in insertion order. -/
def keysQ (q : FileQueue) : List String :=
  q.map Prod.fst

/-- ASCII model of Python `str.lower` (paths in scope are ASCII). -/
def pyLower (s : String) : String :=
  ⟨s.data.map Char.toLower⟩

/-- CPython `posixpath.basename`: the characters after the last slash. -/
def basename (s : String) : String :=
  ⟨s.data.foldl (fun acc c => if c = '/' then [] else acc ++ [c]) []⟩

/-- The characters from the last dot onwards (empty if no dot). -/
def extAfterLastDot (cs : List Char) : List Char :=
  cs.foldl (fun acc c => if c = '.' then ['.'] else if acc = [] then [] else acc ++ [c]) []

/-- The extension component of CPython `posixpath.splitext`: the suffix of
the basename starting at its last dot, except that dots leading the
basename do not start an extension (so ".bashrc" has none). -/
def splitextExt (s : String) : String :=
  let b := (basename s).data
  ⟨extAfterLastDot (b.dropWhile (fun c => c = '.'))⟩

/-- A watchdog filesystem event as consumed by `on_any_event`. -/
structure Event where
  src_path : String
  event_type : String
  is_directory : Bool
  deriving Repr, DecidableEq

/-- The `FileQueueItem` built by `on_any_event` for a fresh path (source
lines 97-102): size from the stat, name/extension derived from the path,
next poll one polling interval from now. -/
def ingestItem (polling_time_secs now : Nat) (src_path : String) (size : Nat) :
    FileQueueItem :=
  { file_path := src_path
    file_size := size
    file_name := basename src_path
    file_extention := pyLower (splitextExt src_path)
    next_poll := now + polling_time_secs }

/-- `FileProcessor.on_any_event` (source lines 81-105).  Returns the new
`FILE_QUEUE`.  `os.path.getsize` on a vanished path raises: that is the
`error` case, carrying the map unchanged (the insert at line 105 is never
reached). -/
def on_any_event (polling_time_secs : Nat) (fs : String → Option Nat)
    (now : Nat) (queue : FileQueue) (event : Event) :
    Except FileQueue FileQueue :=
  if event.is_directory || event.event_type != "modified" then
    .ok queue
  else if containsKey queue event.src_path then
    .ok queue
  else
    match fs event.src_path with
    | none => .error queue
    | some size =>
      .ok (setItem queue event.src_path
            (ingestItem polling_time_secs now event.src_path size))

/-- Outcome of one pass of the `while True` loop body of
`FileProcessor.process_file`: the live map after the pass, the entries
logged "ready for processing" in order, and whether the pass raised (a
failed `os.path.getsize` at line 123 propagates out of the loop and kills
the polling thread). -/
structure SweepResult where
  queue : FileQueue
  ready : List FileQueueItem
  crashed : Bool
  deriving Repr, DecidableEq

/-- The `for` loop of `process_file` (source lines 114-136): iterate the
snapshot `current_items`, mutating the live map `q`.  `current_time` is
sampled once per pass (line 112). -/
def processSnapshot (polling_time_secs : Nat) (fs : String → Option Nat)
    (current_time : Nat) :
    List (String × FileQueueItem) → FileQueue → List FileQueueItem → SweepResult
  | [], q, ready => ⟨q, ready, false⟩
  | (queue_file_path, queued_file) :: rest, q, ready =>
    if current_time < queued_file.next_poll then
      processSnapshot polling_time_secs fs current_time rest q ready
    else
      match fs queue_file_path with
      | none => ⟨q, ready, true⟩
      | some current_file_size =>
        if current_file_size ≠ queued_file.file_size then
          processSnapshot polling_time_secs fs current_time rest
            (setItem q queue_file_path
              { queued_file with
                  file_size := current_file_size
                  next_poll := current_time + polling_time_secs })
            ready
        else
          processSnapshot polling_time_secs fs current_time rest
            (popItem q queue_file_path) (ready ++ [queued_file])

/-- One tick of `process_file`: snapshot the live map
(`current_items = dict(FILE_QUEUE)`, line 113) and run the loop over it. -/
def sweepTick (polling_time_secs : Nat) (fs : String → Option Nat)
    (now : Nat) (queue : FileQueue) : SweepResult :=
  processSnapshot polling_time_secs fs now queue queue []

/-- The startup loop of `main` (source lines 147-152): subscribe to each
configured root that exists, log an error and skip each one that does not.
Returns the subscribed roots and the error-logged roots, in order. -/
def mainLoop (pathExists : String → Bool) : List String → List String × List String
  | [] => ([], [])
  | d :: rest =>
    let r := mainLoop pathExists rest
    if pathExists d then (d :: r.1, r.2) else (r.1, d :: r.2)

/-! ### Association-list (Python dict) lemmas -/

@[simp] lemma keysQ_nil : keysQ [] = [] := rfl

@[simp] lemma keysQ_cons (kh : String) (w : FileQueueItem)
    (tl : FileQueue) : keysQ ((kh, w) :: tl) = kh :: keysQ tl := rfl

lemma lookupQ_setItem_self (q : FileQueue) (k : String) (v : FileQueueItem) :
    lookupQ (setItem q k v) k = some v := by
  induction q with
  | nil => simp [setItem, lookupQ]
  | cons hd tl ih =>
    obtain ⟨kh, w⟩ := hd
    by_cases h : kh = k
    · simp [setItem, h, lookupQ]
    · simp [setItem, h, lookupQ, ih]

lemma lookupQ_setItem_ne (q : FileQueue) (k key : String) (v : FileQueueItem)
    (h : k ≠ key) : lookupQ (setItem q k v) key = lookupQ q key := by
  have h2 : ¬(key = k) := fun e => h e.symm
  induction q with
  | nil => simp [setItem, lookupQ, h]
  | cons hd tl ih =>
    obtain ⟨kh, w⟩ := hd
    by_cases hh : kh = k
    · subst hh
      simp [setItem, lookupQ, h, h2]
    · by_cases hk : kh = key
      · simp [setItem, hh, lookupQ, hk, h2]
      · simp [setItem, hh, lookupQ, hk, ih]

lemma lookupQ_popItem_ne (q : FileQueue) (k key : String)
    (h : k ≠ key) : lookupQ (popItem q k) key = lookupQ q key := by
  have h2 : ¬(key = k) := fun e => h e.symm
  induction q with
  | nil => simp [popItem]
  | cons hd tl ih =>
    obtain ⟨kh, w⟩ := hd
    by_cases hh : kh = k
    · subst hh
      simp [popItem, lookupQ, h, h2]
    · by_cases hk : kh = key
      · simp [popItem, hh, lookupQ, hk, h2]
      · simp [popItem, hh, lookupQ, hk, ih]

lemma mem_setItem (q : FileQueue) (k : String) (v : FileQueueItem) :
    ∀ kv ∈ setItem q k v, kv = (k, v) ∨ kv ∈ q := by
  induction q with
  | nil => simp [setItem]
  | cons hd tl ih =>
    obtain ⟨kh, w⟩ := hd
    intro kv hkv
    by_cases hh : kh = k
    · simp only [setItem, if_pos hh] at hkv
      rcases List.mem_cons.mp hkv with h1 | h2
      · exact Or.inl h1
      · exact Or.inr (List.mem_cons_of_mem _ h2)
    · simp only [setItem, if_neg hh] at hkv
      rcases List.mem_cons.mp hkv with h1 | h2
      · exact Or.inr (h1 ▸ List.mem_cons_self _ _)
      · rcases ih kv h2 with h3 | h4
        · exact Or.inl h3
        · exact Or.inr (List.mem_cons_of_mem _ h4)

lemma popItem_sublist (q : FileQueue) (k : String) :
    List.Sublist (popItem q k) q := by
  induction q with
  | nil => simp [popItem]
  | cons hd tl ih =>
    obtain ⟨kh, w⟩ := hd
    by_cases hh : kh = k
    · have hp : popItem ((kh, w) :: tl) k = tl := by simp [popItem, hh]
      rw [hp]
      exact List.sublist_cons_self (kh, w) tl
    · simpa [popItem, hh] using List.Sublist.cons₂ (kh, w) ih

lemma lookupQ_eq_none_iff (q : FileQueue) (k : String) :
    lookupQ q k = none ↔ k ∉ keysQ q := by
  induction q with
  | nil => simp [lookupQ]
  | cons hd tl ih =>
    obtain ⟨kh, w⟩ := hd
    by_cases hh : kh = k
    · simp [lookupQ, hh]
    · simp [lookupQ, hh, ih, Ne.symm hh]

lemma containsKey_eq_false_iff (q : FileQueue) (k : String) :
    containsKey q k = false ↔ k ∉ keysQ q := by
  rw [← lookupQ_eq_none_iff]
  unfold containsKey
  cases lookupQ q k <;> simp

lemma keysQ_setItem_of_contains (q : FileQueue) (k : String) (v : FileQueueItem)
    (h : containsKey q k = true) : keysQ (setItem q k v) = keysQ q := by
  induction q with
  | nil => simp [containsKey, lookupQ] at h
  | cons hd tl ih =>
    obtain ⟨kh, w⟩ := hd
    by_cases hh : kh = k
    · simp [setItem, hh]
    · have h' : containsKey tl k = true := by
        simpa [containsKey, lookupQ, hh] using h
      simp [setItem, hh, ih h']

lemma keysQ_setItem_of_not_contains (q : FileQueue) (k : String) (v : FileQueueItem)
    (h : containsKey q k = false) : keysQ (setItem q k v) = keysQ q ++ [k] := by
  induction q with
  | nil => simp [setItem]
  | cons hd tl ih =>
    obtain ⟨kh, w⟩ := hd
    by_cases hh : kh = k
    · simp [containsKey, lookupQ, hh] at h
    · have h' : containsKey tl k = false := by
        simpa [containsKey, lookupQ, hh] using h
      simp [setItem, hh, ih h']

lemma nodup_keysQ_setItem (q : FileQueue) (k : String) (v : FileQueueItem)
    (h : (keysQ q).Nodup) : (keysQ (setItem q k v)).Nodup := by
  cases hc : containsKey q k
  · rw [keysQ_setItem_of_not_contains q k v hc]
    have hk : k ∉ keysQ q := (containsKey_eq_false_iff q k).mp hc
    simp [List.nodup_append, h, hk]
  · rw [keysQ_setItem_of_contains q k v hc]
    exact h

lemma nodup_keysQ_popItem (q : FileQueue) (k : String)
    (h : (keysQ q).Nodup) : (keysQ (popItem q k)).Nodup :=
  ((popItem_sublist q k).map Prod.fst).nodup h

lemma lookupQ_eq_some_of_mem (q : FileQueue) (k : String) (v : FileQueueItem)
    (hnd : (keysQ q).Nodup) (hm : (k, v) ∈ q) : lookupQ q k = some v := by
  induction q with
  | nil => simp at hm
  | cons hd tl ih =>
    obtain ⟨kh, w⟩ := hd
    rcases List.mem_cons.mp hm with h1 | h2
    · obtain ⟨hk, hv⟩ := Prod.ext_iff.mp h1.symm
      simp only at hk hv
      simp [lookupQ, hk, hv]
    · by_cases hh : kh = k
      · exfalso
        have hmem : k ∈ keysQ tl := by
          simpa [keysQ] using List.mem_map_of_mem Prod.fst h2
        simp only [keysQ_cons, List.nodup_cons] at hnd
        exact hnd.1 (hh ▸ hmem)
      · have hnd' : (keysQ tl).Nodup := by
          simp only [keysQ_cons, List.nodup_cons] at hnd
          exact hnd.2
        simp [lookupQ, hh, ih hnd' h2]

lemma mem_of_lookupQ_eq_some (q : FileQueue) (k : String) (v : FileQueueItem)
    (h : lookupQ q k = some v) : (k, v) ∈ q := by
  induction q with
  | nil => simp [lookupQ] at h
  | cons hd tl ih =>
    obtain ⟨kh, w⟩ := hd
    by_cases hh : kh = k
    · simp only [lookupQ, if_pos hh] at h
      obtain rfl := Option.some.inj h
      exact hh ▸ List.mem_cons_self _ _
    · simp only [lookupQ, if_neg hh] at h
      exact List.mem_cons_of_mem _ (ih h)

/-! ### Sweep-pass lemmas -/

/-- Entries of the snapshot whose key is only held by not-yet-due items
leave the live binding of that key untouched; this also covers a pass that
raises midway, since the partial mutations never touch the key. -/
lemma processSnapshot_lookup_skip (p : Nat) (fs : String → Option Nat)
    (now : Nat) (s : String) :
    ∀ (l : List (String × FileQueueItem)) (q : FileQueue) (acc : List FileQueueItem),
      (∀ kv ∈ l, kv.1 = s → now < kv.2.next_poll) →
      lookupQ (processSnapshot p fs now l q acc).queue s = lookupQ q s := by
  intro l
  induction l with
  | nil => intro q acc _; rfl
  | cons hd tl ih =>
    intro q acc h
    obtain ⟨k, it⟩ := hd
    have hrest : ∀ kv ∈ tl, kv.1 = s → now < kv.2.next_poll :=
      fun kv hm => h kv (List.mem_cons_of_mem _ hm)
    by_cases hdue : now < it.next_poll
    · simp only [processSnapshot, if_pos hdue]
      exact ih q acc hrest
    · have hks : k ≠ s := fun he => hdue (h (k, it) (List.mem_cons_self _ _) he)
      simp only [processSnapshot, if_neg hdue]
      cases hfs : fs k with
      | none => rfl
      | some sz =>
        dsimp only
        by_cases hsz : sz = it.file_size
        · rw [if_neg (fun hn => hn hsz)]
          rw [ih _ _ hrest, lookupQ_popItem_ne q k s hks]
        · rw [if_pos hsz]
          rw [ih _ _ hrest, lookupQ_setItem_ne q k s _ hks]

/-- A sweep pass never consults the filesystem at a key all of whose
snapshot occurrences are not yet due: overriding the stat result at that
key does not change the pass at all. -/
lemma processSnapshot_override (p : Nat) (fs : String → Option Nat)
    (now : Nat) (s : String) (v : Option Nat) :
    ∀ (l : List (String × FileQueueItem)) (q : FileQueue) (acc : List FileQueueItem),
      (∀ kv ∈ l, kv.1 = s → now < kv.2.next_poll) →
      processSnapshot p (fun k => if k = s then v else fs k) now l q acc
        = processSnapshot p fs now l q acc := by
  intro l
  induction l with
  | nil => intro q acc _; rfl
  | cons hd tl ih =>
    intro q acc h
    obtain ⟨k, it⟩ := hd
    have hrest : ∀ kv ∈ tl, kv.1 = s → now < kv.2.next_poll :=
      fun kv hm => h kv (List.mem_cons_of_mem _ hm)
    by_cases hdue : now < it.next_poll
    · simp only [processSnapshot, if_pos hdue]
      exact ih q acc hrest
    · have hks : k ≠ s := fun he => hdue (h (k, it) (List.mem_cons_self _ _) he)
      simp only [processSnapshot, if_neg hdue]
      rw [if_neg hks]
      cases hfs : fs k with
      | none => rfl
      | some sz =>
        dsimp only
        by_cases hsz : sz = it.file_size
        · have hcond : ¬ (sz ≠ it.file_size) := fun hn => hn hsz
          simp only [if_neg hcond]
          exact ih _ _ hrest
        · simp only [if_pos hsz]
          exact ih _ _ hrest

/-- Auxiliary fact: a pair of the snapshot with the looked-up key has the
looked-up value, provided the snapshot keys are free of duplicates. -/
lemma head_value_eq (s : String) (item it : FileQueueItem)
    (tl : List (String × FileQueueItem))
    (hnd : (keysQ ((s, it) :: tl)).Nodup)
    (hmem : (s, item) ∈ (s, it) :: tl) : it = item := by
  rcases List.mem_cons.mp hmem with h1 | h2
  · exact ((Prod.ext_iff.mp h1).2).symm
  · exfalso
    have hkey : s ∈ keysQ tl := by
      simpa [keysQ] using List.mem_map_of_mem Prod.fst h2
    simp only [keysQ_cons, List.nodup_cons] at hnd
    exact hnd.1 hkey

/-- If the entry of key `s` is due and its re-stat yields a size different
from the recorded one, the sweep pass re-arms it: afterwards the live map
binds `s` to the same item with only `file_size` and `next_poll` changed
(provided no entry of the pass raises). -/
lemma processSnapshot_rearm (p : Nat) (fs : String → Option Nat) (now : Nat)
    (s : String) (item : FileQueueItem) (m : Nat)
    (hdue : item.next_poll ≤ now) (hfs : fs s = some m)
    (hne : m ≠ item.file_size) :
    ∀ (l : List (String × FileQueueItem)) (q : FileQueue) (acc : List FileQueueItem),
      (keysQ l).Nodup → (s, item) ∈ l → lookupQ q s = some item →
      (∀ kv ∈ l, kv.2.next_poll ≤ now → (fs kv.1).isSome = true) →
      lookupQ (processSnapshot p fs now l q acc).queue s
        = some { item with file_size := m, next_poll := now + p } := by
  intro l
  induction l with
  | nil => intro q acc _ hmem _ _; simp at hmem
  | cons hd tl ih =>
    intro q acc hnd hmem hq hstat
    obtain ⟨k, it⟩ := hd
    have hnd' : (keysQ tl).Nodup := by
      simp only [keysQ_cons, List.nodup_cons] at hnd
      exact hnd.2
    have hstat' : ∀ kv ∈ tl, kv.2.next_poll ≤ now → (fs kv.1).isSome = true :=
      fun kv hm => hstat kv (List.mem_cons_of_mem _ hm)
    by_cases hk : k = s
    · subst hk
      have hit : it = item := head_value_eq k item it tl hnd hmem
      subst hit
      have hnotlt : ¬ now < it.next_poll := Nat.not_lt.mpr hdue
      simp only [processSnapshot, if_neg hnotlt]
      rw [hfs]
      dsimp only
      rw [if_pos hne]
      have htl : ∀ kv ∈ tl, kv.1 = k → now < kv.2.next_poll := by
        intro kv hm he
        exfalso
        have hkey : k ∈ keysQ tl := by
          have := List.mem_map_of_mem Prod.fst hm
          simpa [keysQ, he] using this
        simp only [keysQ_cons, List.nodup_cons] at hnd
        exact hnd.1 hkey
      rw [processSnapshot_lookup_skip p fs now k tl _ acc htl]
      exact lookupQ_setItem_self q k _
    · have hmem' : (s, item) ∈ tl := by
        rcases List.mem_cons.mp hmem with h1 | h2
        · exact absurd ((Prod.ext_iff.mp h1).1).symm hk
        · exact h2
      by_cases hdue2 : now < it.next_poll
      · simp only [processSnapshot, if_pos hdue2]
        exact ih q acc hnd' hmem' hq hstat'
      · have hsome : (fs k).isSome = true :=
          hstat (k, it) (List.mem_cons_self _ _) (Nat.not_lt.mp hdue2)
        obtain ⟨sz, hsz⟩ := Option.isSome_iff_exists.mp hsome
        simp only [processSnapshot, if_neg hdue2]
        rw [hsz]
        dsimp only
        by_cases hszeq : sz = it.file_size
        · rw [if_neg (fun hn => hn hszeq)]
          refine ih _ _ hnd' hmem' ?_ hstat'
          rw [lookupQ_popItem_ne q k s hk]
          exact hq
        · rw [if_pos hszeq]
          refine ih _ _ hnd' hmem' ?_ hstat'
          rw [lookupQ_setItem_ne q k s _ hk]
          exact hq

/-- If some tracked entry is due but its re-stat raises, the whole sweep
pass raises (the polling thread dies) and the live binding of that entry
is left exactly as it was. -/
lemma processSnapshot_crash (p : Nat) (fs : String → Option Nat) (now : Nat)
    (s : String) (item : FileQueueItem)
    (hdue : item.next_poll ≤ now) (hfs : fs s = none) :
    ∀ (l : List (String × FileQueueItem)) (q : FileQueue) (acc : List FileQueueItem),
      (keysQ l).Nodup → (s, item) ∈ l → lookupQ q s = some item →
      (processSnapshot p fs now l q acc).crashed = true
      ∧ lookupQ (processSnapshot p fs now l q acc).queue s = some item := by
  intro l
  induction l with
  | nil => intro q acc _ hmem _; simp at hmem
  | cons hd tl ih =>
    intro q acc hnd hmem hq
    obtain ⟨k, it⟩ := hd
    have hnd' : (keysQ tl).Nodup := by
      simp only [keysQ_cons, List.nodup_cons] at hnd
      exact hnd.2
    by_cases hk : k = s
    · subst hk
      have hit : it = item := head_value_eq k item it tl hnd hmem
      subst hit
      have hnotlt : ¬ now < it.next_poll := Nat.not_lt.mpr hdue
      simp only [processSnapshot, if_neg hnotlt]
      rw [hfs]
      exact ⟨rfl, hq⟩
    · have hmem' : (s, item) ∈ tl := by
        rcases List.mem_cons.mp hmem with h1 | h2
        · exact absurd ((Prod.ext_iff.mp h1).1).symm hk
        · exact h2
      by_cases hdue2 : now < it.next_poll
      · simp only [processSnapshot, if_pos hdue2]
        exact ih q acc hnd' hmem' hq
      · simp only [processSnapshot, if_neg hdue2]
        cases hfk : fs k with
        | none => exact ⟨rfl, hq⟩
        | some sz =>
          dsimp only
          by_cases hszeq : sz = it.file_size
          · rw [if_neg (fun hn => hn hszeq)]
            refine ih _ _ hnd' hmem' ?_
            rw [lookupQ_popItem_ne q k s hk]
            exact hq
          · rw [if_pos hszeq]
            refine ih _ _ hnd' hmem' ?_
            rw [lookupQ_setItem_ne q k s _ hk]
            exact hq

/-! ### Map-consistency invariant -/

/-- The derived fields of a tracked entry agree with its key: the recorded
path is the key, the name is its basename and the extension its lowercased
`splitext` extension. -/
def itemConsistent (k : String) (it : FileQueueItem) : Prop :=
  it.file_path = k ∧ it.file_name = basename k
    ∧ it.file_extention = pyLower (splitextExt k)

instance (k : String) (it : FileQueueItem) : Decidable (itemConsistent k it) := by
  unfold itemConsistent
  infer_instance

/-- The map invariant: every entry is consistent with its key and no key
is bound twice. -/
def QueueInv (q : FileQueue) : Prop :=
  (∀ kv ∈ q, itemConsistent kv.1 kv.2) ∧ (keysQ q).Nodup

instance (q : FileQueue) : Decidable (QueueInv q) := by
  unfold QueueInv
  infer_instance

lemma itemConsistent_ingestItem (p now : Nat) (s : String) (n : Nat) :
    itemConsistent s (ingestItem p now s n) :=
  ⟨rfl, rfl, rfl⟩

lemma itemConsistent_update (k : String) (it : FileQueueItem) (m t : Nat)
    (h : itemConsistent k it) :
    itemConsistent k { it with file_size := m, next_poll := t } := h

lemma queueInv_setItem (q : FileQueue) (k : String) (v : FileQueueItem)
    (h : QueueInv q) (hv : itemConsistent k v) : QueueInv (setItem q k v) := by
  refine ⟨?_, nodup_keysQ_setItem q k v h.2⟩
  intro kv hm
  rcases mem_setItem q k v kv hm with he | hin
  · subst he
    exact hv
  · exact h.1 kv hin

lemma queueInv_popItem (q : FileQueue) (k : String)
    (h : QueueInv q) : QueueInv (popItem q k) :=
  ⟨fun kv hm => h.1 kv ((popItem_sublist q k).subset hm),
   nodup_keysQ_popItem q k h.2⟩

/-- A sweep pass preserves the map invariant (also when it raises midway:
the partial mutations are themselves invariant-preserving). -/
lemma processSnapshot_inv (p : Nat) (fs : String → Option Nat) (now : Nat) :
    ∀ (l : List (String × FileQueueItem)) (q : FileQueue) (acc : List FileQueueItem),
      (∀ kv ∈ l, itemConsistent kv.1 kv.2) → QueueInv q →
      QueueInv (processSnapshot p fs now l q acc).queue := by
  intro l
  induction l with
  | nil => intro q acc _ hq; exact hq
  | cons hd tl ih =>
    intro q acc hl hq
    obtain ⟨k, it⟩ := hd
    have hl' : ∀ kv ∈ tl, itemConsistent kv.1 kv.2 :=
      fun kv hm => hl kv (List.mem_cons_of_mem _ hm)
    have hit : itemConsistent k it := hl (k, it) (List.mem_cons_self _ _)
    by_cases hdue : now < it.next_poll
    · simp only [processSnapshot, if_pos hdue]
      exact ih q acc hl' hq
    · simp only [processSnapshot, if_neg hdue]
      cases hfk : fs k with
      | none => exact hq
      | some sz =>
        dsimp only
        by_cases hszeq : sz = it.file_size
        · rw [if_neg (fun hn => hn hszeq)]
          exact ih _ _ hl' (queueInv_popItem q k hq)
        · rw [if_pos hszeq]
          exact ih _ _ hl' (queueInv_setItem q k _ hq (itemConsistent_update k it _ _ hit))

/-! ### Claim theorems -/

/-- Claim C1: a file ingested with size `n` whose size is still `n` at a
due sweep tick (size sequence `[n, n]` across the two due ticks) is
removed from the map by that tick and reported "ready for processing"
exactly once; once removed it is never reported ready again. -/
theorem claim_C1_settle_detection (p n t0 t1 : Nat) (s : String)
    (fs0 fs1 : String → Option Nat)
    (hfs0 : fs0 s = some n) (hfs1 : fs1 s = some n) (ht : t0 + p ≤ t1) :
    on_any_event p fs0 t0 [] ⟨s, "modified", false⟩
        = .ok [(s, ingestItem p t0 s n)]
    ∧ sweepTick p fs1 t1 [(s, ingestItem p t0 s n)]
        = ⟨[], [ingestItem p t0 s n], false⟩
    ∧ (∀ (fs2 : String → Option Nat) (t2 : Nat),
        (sweepTick p fs2 t2 ([] : FileQueue)).ready = []) := by
  refine ⟨?_, ?_, fun fs2 t2 => rfl⟩
  · simp [on_any_event, containsKey, lookupQ, hfs0, setItem]
  · have hnl : ¬ t1 < (ingestItem p t0 s n).next_poll := by
      simp only [ingestItem, not_lt]
      exact ht
    rw [sweepTick]
    simp only [processSnapshot, if_neg hnl]
    rw [hfs1]
    dsimp only
    have hcond : ¬ (n ≠ (ingestItem p t0 s n).file_size) := by
      simp [ingestItem]
    rw [if_neg hcond]
    simp [popItem, processSnapshot]

theorem claim_C1_settle_detection_witness :
    on_any_event 2 (fun _ => some 100) 0 [] ⟨"/staging/in.txt", "modified", false⟩
        = .ok [("/staging/in.txt", ingestItem 2 0 "/staging/in.txt" 100)]
    ∧ sweepTick 2 (fun _ => some 100) 2
          [("/staging/in.txt", ingestItem 2 0 "/staging/in.txt" 100)]
        = ⟨[], [ingestItem 2 0 "/staging/in.txt" 100], false⟩ := by
  have h := claim_C1_settle_detection 2 100 0 2 "/staging/in.txt"
    (fun _ => some 100) (fun _ => some 100) rfl rfl (by decide)
  exact ⟨h.1, h.2.1⟩

/-- Claim C2: for size sequence `[a, b, b]` with `b ≠ a` sampled at ingest
and two due ticks, the first due tick re-arms the entry (size updated to
`b`, next check pushed to that tick's time plus the polling interval, the
entry staying in the map) and the next due tick removes it and emits the
ready event. -/
theorem claim_C2_rearm_on_growth (p a b t0 t1 t2 : Nat) (s : String)
    (fs0 fs1 fs2 : String → Option Nat)
    (hfs0 : fs0 s = some a) (hfs1 : fs1 s = some b) (hfs2 : fs2 s = some b)
    (hab : b ≠ a) (ht1 : t0 + p ≤ t1) (ht2 : t1 + p ≤ t2) :
    on_any_event p fs0 t0 [] ⟨s, "modified", false⟩
        = .ok [(s, ingestItem p t0 s a)]
    ∧ sweepTick p fs1 t1 [(s, ingestItem p t0 s a)]
        = ⟨[(s, { ingestItem p t0 s a with file_size := b, next_poll := t1 + p })],
           [], false⟩
    ∧ sweepTick p fs2 t2
          [(s, { ingestItem p t0 s a with file_size := b, next_poll := t1 + p })]
        = ⟨[], [{ ingestItem p t0 s a with file_size := b, next_poll := t1 + p }],
           false⟩ := by
  refine ⟨?_, ?_, ?_⟩
  · simp [on_any_event, containsKey, lookupQ, hfs0, setItem]
  · have hnl : ¬ t1 < (ingestItem p t0 s a).next_poll := by
      simp only [ingestItem, not_lt]
      exact ht1
    rw [sweepTick]
    simp only [processSnapshot, if_neg hnl]
    rw [hfs1]
    dsimp only
    have hcond : b ≠ (ingestItem p t0 s a).file_size := by
      simpa [ingestItem] using hab
    rw [if_pos hcond]
    simp [setItem, processSnapshot, ingestItem]
  · have hnl : ¬ t2 <
        ({ ingestItem p t0 s a with file_size := b, next_poll := t1 + p } :
          FileQueueItem).next_poll := by
      simp only [not_lt]
      exact ht2
    rw [sweepTick]
    simp only [processSnapshot, if_neg hnl]
    rw [hfs2]
    dsimp only
    have hcond : ¬ (b ≠
        ({ ingestItem p t0 s a with file_size := b, next_poll := t1 + p } :
          FileQueueItem).file_size) := by
      simp
    rw [if_neg hcond]
    simp [popItem, processSnapshot]

theorem claim_C2_rearm_on_growth_witness :
    on_any_event 2 (fun _ => some 100) 0 [] ⟨"/staging/in.txt", "modified", false⟩
        = .ok [("/staging/in.txt", ingestItem 2 0 "/staging/in.txt" 100)]
    ∧ sweepTick 2 (fun _ => some 150) 2
          [("/staging/in.txt", ingestItem 2 0 "/staging/in.txt" 100)]
        = ⟨[("/staging/in.txt",
            { ingestItem 2 0 "/staging/in.txt" 100 with
                file_size := 150, next_poll := 4 })], [], false⟩
    ∧ sweepTick 2 (fun _ => some 150) 4
          [("/staging/in.txt",
            { ingestItem 2 0 "/staging/in.txt" 100 with
                file_size := 150, next_poll := 4 })]
        = ⟨[], [{ ingestItem 2 0 "/staging/in.txt" 100 with
                    file_size := 150, next_poll := 4 }], false⟩ :=
  claim_C2_rearm_on_growth 2 100 150 0 2 4 "/staging/in.txt"
    (fun _ => some 100) (fun _ => some 150) (fun _ => some 150)
    rfl rfl rfl (by decide) (by decide) (by decide)

/-- Claim C3: ingesting a path already present in the map is a no-op, so a
second ingest of the same path with no intervening sweep leaves exactly
one entry for the path, carrying the size captured at the first ingest
(the second call returns before even re-statting, whatever `fs1` does). -/
theorem claim_C3_idempotent_ingest (p t0 t1 : Nat)
    (fs0 fs1 : String → Option Nat) (q : FileQueue) (s : String) (n : Nat)
    (hnew : containsKey q s = false) (hfs0 : fs0 s = some n) :
    on_any_event p fs0 t0 q ⟨s, "modified", false⟩
        = .ok (setItem q s (ingestItem p t0 s n))
    ∧ on_any_event p fs1 t1 (setItem q s (ingestItem p t0 s n))
          ⟨s, "modified", false⟩
        = .ok (setItem q s (ingestItem p t0 s n))
    ∧ lookupQ (setItem q s (ingestItem p t0 s n)) s = some (ingestItem p t0 s n)
    ∧ (keysQ (setItem q s (ingestItem p t0 s n))).count s = 1
    ∧ (ingestItem p t0 s n).file_size = n := by
  have hc : containsKey (setItem q s (ingestItem p t0 s n)) s = true := by
    simp [containsKey, lookupQ_setItem_self]
  refine ⟨?_, ?_, lookupQ_setItem_self q s _, ?_, rfl⟩
  · simp [on_any_event, hnew, hfs0]
  · simp [on_any_event, hc]
  · rw [keysQ_setItem_of_not_contains q s _ hnew]
    have hs : s ∉ keysQ q := (containsKey_eq_false_iff q s).mp hnew
    simp [List.count_append, List.count_eq_zero.mpr hs]

theorem claim_C3_idempotent_ingest_witness :
    on_any_event 2 (fun _ => some 3) 0 [] ⟨"/staging/in.txt", "modified", false⟩
        = .ok (setItem [] "/staging/in.txt" (ingestItem 2 0 "/staging/in.txt" 3))
    ∧ on_any_event 2 (fun _ => none) 1
          (setItem [] "/staging/in.txt" (ingestItem 2 0 "/staging/in.txt" 3))
          ⟨"/staging/in.txt", "modified", false⟩
        = .ok (setItem [] "/staging/in.txt" (ingestItem 2 0 "/staging/in.txt" 3))
    ∧ lookupQ (setItem [] "/staging/in.txt" (ingestItem 2 0 "/staging/in.txt" 3))
          "/staging/in.txt" = some (ingestItem 2 0 "/staging/in.txt" 3)
    ∧ (keysQ (setItem [] "/staging/in.txt"
          (ingestItem 2 0 "/staging/in.txt" 3))).count "/staging/in.txt" = 1
    ∧ (ingestItem 2 0 "/staging/in.txt" 3).file_size = 3 :=
  claim_C3_idempotent_ingest 2 0 1 (fun _ => some 3) (fun _ => none) []
    "/staging/in.txt" 3 rfl rfl

/-- Claim C4: an entry whose `next_poll` is strictly in the future at a
sweep tick is skipped unchanged by that tick — its live binding is
untouched, and the tick never consults the filesystem at its path (the
whole pass is unchanged under any override of the stat result there). -/
theorem claim_C4_due_time_gating (p : Nat) (fs : String → Option Nat)
    (now : Nat) (q : FileQueue) (s : String) (item : FileQueueItem)
    (v : Option Nat)
    (hnd : (keysQ q).Nodup) (hlk : lookupQ q s = some item)
    (hfut : now < item.next_poll) :
    lookupQ (sweepTick p fs now q).queue s = some item
    ∧ sweepTick p (fun k => if k = s then v else fs k) now q
        = sweepTick p fs now q := by
  have hall : ∀ kv ∈ q, kv.1 = s → now < kv.2.next_poll := by
    intro kv hm he
    obtain ⟨k1, it1⟩ := kv
    simp only at he
    subst he
    have h2 := lookupQ_eq_some_of_mem q k1 it1 hnd hm
    rw [hlk] at h2
    obtain rfl := Option.some.inj h2
    exact hfut
  constructor
  · rw [sweepTick, processSnapshot_lookup_skip p fs now s q q [] hall]
    exact hlk
  · rw [sweepTick, sweepTick, processSnapshot_override p fs now s v q q [] hall]

theorem claim_C4_due_time_gating_witness :
    lookupQ (sweepTick 2 (fun _ => none) 6
        [("/staging/in.txt", ingestItem 2 5 "/staging/in.txt" 9)]).queue
        "/staging/in.txt" = some (ingestItem 2 5 "/staging/in.txt" 9)
    ∧ sweepTick 2 (fun k => if k = "/staging/in.txt" then some 0 else (fun _ => none) k) 6
          [("/staging/in.txt", ingestItem 2 5 "/staging/in.txt" 9)]
        = sweepTick 2 (fun _ => none) 6
          [("/staging/in.txt", ingestItem 2 5 "/staging/in.txt" 9)] :=
  claim_C4_due_time_gating 2 (fun _ => none) 6
    [("/staging/in.txt", ingestItem 2 5 "/staging/in.txt" 9)]
    "/staging/in.txt" (ingestItem 2 5 "/staging/in.txt" 9) (some 0)
    (by decide) rfl (by decide)

/-- Claim C5 counterexample: at a qualifying modify notification for a
fresh path whose stat fails, `on_any_event` does not drop the
notification silently — `os.path.getsize` raises and the exception
propagates to the caller (the `error` outcome), contradicting the claim
that no error is surfaced. -/
theorem claim_C5_counterexample :
    on_any_event 2 (fun _ => none) 0 [] ⟨"/staging/gone.txt", "modified", false⟩
      = .error ([] : FileQueue) := by
  rfl

/-- Claim C5 (amended): when the path of a qualifying modify notification
vanishes before ingest's size stat, the stat raises and the exception
propagates to the caller (watchdog's dispatcher) uncaught — there is no
try/except in `on_any_event`; the path still never enters the map (the
raise happens before the insert, so the map is returned unchanged). -/
theorem claim_C5_vanished_ingest_raises (p : Nat) (fs : String → Option Nat)
    (t : Nat) (q : FileQueue) (ev : Event)
    (hdir : ev.is_directory = false) (htype : ev.event_type = "modified")
    (hnew : containsKey q ev.src_path = false)
    (hfs : fs ev.src_path = none) :
    on_any_event p fs t q ev = .error q := by
  simp [on_any_event, hdir, htype, hnew, hfs]

theorem claim_C5_vanished_ingest_raises_witness :
    on_any_event 2 (fun _ => none) 3 [] ⟨"/staging/flaky.txt", "modified", false⟩
      = .error ([] : FileQueue) :=
  claim_C5_vanished_ingest_raises 2 (fun _ => none) 3 []
    ⟨"/staging/flaky.txt", "modified", false⟩ rfl rfl rfl rfl

/-- Claim C6 counterexample: a concrete sweep tick with two due entries,
the first of which stats `none` (file removed) and the second of which has
settled.  The claim says readiness detection for all other entries
continues; instead the failed stat raises out of the loop: the pass
crashes, no ready event is emitted for the settled second entry, and both
entries stay in the map. -/
theorem claim_C6_counterexample :
    sweepTick 2 (fun k => if k = "/staging/b.txt" then some 7 else none) 5
        [("/staging/a.txt", ⟨"/staging/a.txt", 3, "a.txt", ".txt", 4⟩),
         ("/staging/b.txt", ⟨"/staging/b.txt", 7, "b.txt", ".txt", 4⟩)]
      = ⟨[("/staging/a.txt", ⟨"/staging/a.txt", 3, "a.txt", ".txt", 4⟩),
          ("/staging/b.txt", ⟨"/staging/b.txt", 7, "b.txt", ".txt", 4⟩)],
         [], true⟩ := by
  rfl

/-- Claim C6 (amended): when a due tracked entry's re-stat fails during a
sweep tick, that entry is indeed left untouched in the live map, but the
uncaught exception terminates the sweep pass (and with it the polling
thread): the pass reports `crashed` and no subsequent ticks occur, so
readiness detection stops for all entries rather than continuing. -/
theorem claim_C6_orphan_crashes_sweep (p : Nat) (fs : String → Option Nat)
    (now : Nat) (q : FileQueue) (s : String) (item : FileQueueItem)
    (hnd : (keysQ q).Nodup) (hlk : lookupQ q s = some item)
    (hdue : item.next_poll ≤ now) (hfs : fs s = none) :
    (sweepTick p fs now q).crashed = true
    ∧ lookupQ (sweepTick p fs now q).queue s = some item :=
  processSnapshot_crash p fs now s item hdue hfs q q [] hnd
    (mem_of_lookupQ_eq_some q s item hlk) hlk

theorem claim_C6_orphan_crashes_sweep_witness :
    (sweepTick 2 (fun _ => none) 5
        [("/staging/gone.txt", ⟨"/staging/gone.txt", 3, "gone.txt", ".txt", 4⟩)]).crashed
      = true
    ∧ lookupQ (sweepTick 2 (fun _ => none) 5
        [("/staging/gone.txt", ⟨"/staging/gone.txt", 3, "gone.txt", ".txt", 4⟩)]).queue
        "/staging/gone.txt"
      = some ⟨"/staging/gone.txt", 3, "gone.txt", ".txt", 4⟩ :=
  claim_C6_orphan_crashes_sweep 2 (fun _ => none) 5
    [("/staging/gone.txt", ⟨"/staging/gone.txt", 3, "gone.txt", ".txt", 4⟩)]
    "/staging/gone.txt" ⟨"/staging/gone.txt", 3, "gone.txt", ".txt", 4⟩
    (by decide) rfl (by decide) rfl

/-- Claim C7: `on_any_event` acts only on file-modify notifications; any
directory event and any non-"modified" event kind (created, deleted,
moved, ...) leaves the tracked-file map unchanged. -/
theorem claim_C7_event_filter (p : Nat) (fs : String → Option Nat)
    (t : Nat) (q : FileQueue) (ev : Event)
    (h : ev.is_directory = true ∨ ev.event_type ≠ "modified") :
    on_any_event p fs t q ev = .ok q := by
  rcases h with hd | ht
  · simp [on_any_event, hd]
  · simp [on_any_event, bne_iff_ne, ht]

theorem claim_C7_event_filter_witness :
    on_any_event 2 (fun _ => some 1) 0 [] ⟨"/staging/x.txt", "created", false⟩
      = .ok ([] : FileQueue) :=
  claim_C7_event_filter 2 (fun _ => some 1) 0 []
    ⟨"/staging/x.txt", "created", false⟩ (Or.inr (by decide))

/-- Claim C8: whenever `next_poll` is set — at ingest of a fresh path, or
at a sweep re-arm after a size change — its value is the current time of
that operation plus the configured polling interval. -/
theorem claim_C8_next_poll_arming :
    (∀ (p : Nat) (fs : String → Option Nat) (t : Nat) (q : FileQueue)
        (ev : Event) (n : Nat),
      ev.is_directory = false → ev.event_type = "modified" →
      containsKey q ev.src_path = false → fs ev.src_path = some n →
      on_any_event p fs t q ev
          = .ok (setItem q ev.src_path (ingestItem p t ev.src_path n))
        ∧ (ingestItem p t ev.src_path n).next_poll = t + p)
    ∧ (∀ (p : Nat) (fs : String → Option Nat) (now : Nat) (q : FileQueue)
        (s : String) (item : FileQueueItem) (m : Nat),
      (keysQ q).Nodup → lookupQ q s = some item → item.next_poll ≤ now →
      (∀ kv ∈ q, kv.2.next_poll ≤ now → (fs kv.1).isSome = true) →
      fs s = some m → m ≠ item.file_size →
      lookupQ (sweepTick p fs now q).queue s
          = some { item with file_size := m, next_poll := now + p }) := by
  constructor
  · intro p fs t q ev n hdir htype hnew hfs
    refine ⟨?_, rfl⟩
    simp [on_any_event, hdir, htype, hnew, hfs]
  · intro p fs now q s item m hnd hlk hdue hstat hfs hne
    exact processSnapshot_rearm p fs now s item m hdue hfs hne q q [] hnd
      (mem_of_lookupQ_eq_some q s item hlk) hlk hstat

theorem claim_C8_next_poll_arming_witness :
    (on_any_event 2 (fun _ => some 4) 1 [] ⟨"/staging/x.txt", "modified", false⟩
        = .ok (setItem [] "/staging/x.txt" (ingestItem 2 1 "/staging/x.txt" 4))
      ∧ (ingestItem 2 1 "/staging/x.txt" 4).next_poll = 1 + 2)
    ∧ lookupQ (sweepTick 2 (fun _ => some 9) 3
          [("/staging/y.txt", ⟨"/staging/y.txt", 4, "y.txt", ".txt", 3⟩)]).queue
          "/staging/y.txt"
        = some { (⟨"/staging/y.txt", 4, "y.txt", ".txt", 3⟩ : FileQueueItem) with
                   file_size := 9, next_poll := 3 + 2 } :=
  ⟨claim_C8_next_poll_arming.1 2 (fun _ => some 4) 1 []
      ⟨"/staging/x.txt", "modified", false⟩ 4 rfl rfl rfl rfl,
   claim_C8_next_poll_arming.2 2 (fun _ => some 9) 3
      [("/staging/y.txt", ⟨"/staging/y.txt", 4, "y.txt", ".txt", 3⟩)]
      "/staging/y.txt" ⟨"/staging/y.txt", 4, "y.txt", ".txt", 3⟩ 9
      (by decide) rfl (by decide) (by decide) rfl (by decide)⟩

/-- Claim C9: the startup loop subscribes exactly to the configured roots
that exist and error-logs exactly those that do not; a missing root is
skipped (never subscribed) without stopping the loop, and every existing
root in the same run is still subscribed. -/
theorem claim_C9_missing_directory (ex : String → Bool) (dirs : List String) :
    (mainLoop ex dirs).1 = dirs.filter (fun d => ex d)
    ∧ (mainLoop ex dirs).2 = dirs.filter (fun d => !(ex d))
    ∧ (∀ d ∈ dirs, ex d = false →
        d ∉ (mainLoop ex dirs).1 ∧ d ∈ (mainLoop ex dirs).2)
    ∧ (∀ d ∈ dirs, ex d = true → d ∈ (mainLoop ex dirs).1) := by
  have h1 : ∀ l : List String, (mainLoop ex l).1 = l.filter (fun d => ex d)
      ∧ (mainLoop ex l).2 = l.filter (fun d => !(ex d)) := by
    intro l
    induction l with
    | nil => exact ⟨rfl, rfl⟩
    | cons d tl ih =>
      cases hd : ex d
      · simp [mainLoop, hd, List.filter_cons, ih.1, ih.2]
      · simp [mainLoop, hd, List.filter_cons, ih.1, ih.2]
  refine ⟨(h1 dirs).1, (h1 dirs).2, ?_, ?_⟩
  · intro d hm hex
    rw [(h1 dirs).1, (h1 dirs).2]
    constructor
    · simp [List.mem_filter, hex]
    · simp [List.mem_filter, hm, hex]
  · intro d hm hex
    rw [(h1 dirs).1]
    simp [List.mem_filter, hm, hex]

theorem claim_C9_missing_directory_witness :
    ("/data/missing" ∉
        (mainLoop (fun d => d == "/data/ok") ["/data/ok", "/data/missing"]).1
      ∧ "/data/missing" ∈
        (mainLoop (fun d => d == "/data/ok") ["/data/ok", "/data/missing"]).2)
    ∧ "/data/ok" ∈
        (mainLoop (fun d => d == "/data/ok") ["/data/ok", "/data/missing"]).1 :=
  ⟨(claim_C9_missing_directory (fun d => d == "/data/ok")
      ["/data/ok", "/data/missing"]).2.2.1 "/data/missing" (by decide) (by decide),
   (claim_C9_missing_directory (fun d => d == "/data/ok")
      ["/data/ok", "/data/missing"]).2.2.2 "/data/ok" (by decide) (by decide)⟩

/-- Claim C10: every operation preserves the map-consistency invariant
(each entry's `file_path` is its key, `file_name` the basename of the key
and `file_extention` the lowercased extension, keys unrepeated) — ingest
in both its outcomes and the sweep tick; a re-arm write-back on a present
key leaves the set of tracked keys unchanged, and the re-armed entry
differs from the old one only in `file_size` and `next_poll`. -/
theorem claim_C10_map_consistency :
    (∀ (p : Nat) (fs : String → Option Nat) (t : Nat) (q q2 : FileQueue)
        (ev : Event),
      QueueInv q → on_any_event p fs t q ev = .ok q2 → QueueInv q2)
    ∧ (∀ (p : Nat) (fs : String → Option Nat) (t : Nat) (q q2 : FileQueue)
        (ev : Event),
      QueueInv q → on_any_event p fs t q ev = .error q2 → QueueInv q2)
    ∧ (∀ (p : Nat) (fs : String → Option Nat) (now : Nat) (q : FileQueue),
      QueueInv q → QueueInv (sweepTick p fs now q).queue)
    ∧ (∀ (q : FileQueue) (k : String) (v : FileQueueItem),
      containsKey q k = true → keysQ (setItem q k v) = keysQ q)
    ∧ (∀ (p : Nat) (fs : String → Option Nat) (now : Nat) (q : FileQueue)
        (s : String) (item : FileQueueItem) (m : Nat),
      QueueInv q → lookupQ q s = some item → item.next_poll ≤ now →
      (∀ kv ∈ q, kv.2.next_poll ≤ now → (fs kv.1).isSome = true) →
      fs s = some m → m ≠ item.file_size →
      lookupQ (sweepTick p fs now q).queue s
          = some { item with file_size := m, next_poll := now + p }) := by
  refine ⟨?_, ?_, ?_, ?_, ?_⟩
  · intro p fs t q q2 ev hq hok
    unfold on_any_event at hok
    split at hok
    · obtain rfl := Except.ok.inj hok
      exact hq
    · split at hok
      · obtain rfl := Except.ok.inj hok
        exact hq
      · split at hok
        · cases hok
        · obtain rfl := Except.ok.inj hok
          exact queueInv_setItem q ev.src_path _ hq
            (itemConsistent_ingestItem p t ev.src_path _)
  · intro p fs t q q2 ev hq herr
    unfold on_any_event at herr
    split at herr
    · cases herr
    · split at herr
      · cases herr
      · split at herr
        · obtain rfl := Except.error.inj herr
          exact hq
        · cases herr
  · intro p fs now q hq
    exact processSnapshot_inv p fs now q q [] hq.1 hq
  · intro q k v hc
    exact keysQ_setItem_of_contains q k v hc
  · intro p fs now q s item m hq hlk hdue hstat hfs hne
    exact processSnapshot_rearm p fs now s item m hdue hfs hne q q [] hq.2
      (mem_of_lookupQ_eq_some q s item hlk) hlk hstat

theorem claim_C10_map_consistency_witness :
    QueueInv [("/staging/w.txt", ingestItem 2 0 "/staging/w.txt" 5)]
    ∧ QueueInv ([] : FileQueue)
    ∧ QueueInv (sweepTick 2 (fun _ => some 5) 9
        [("/staging/w.txt", ingestItem 2 0 "/staging/w.txt" 5)]).queue
    ∧ keysQ (setItem [("/staging/w.txt", ingestItem 2 0 "/staging/w.txt" 5)]
          "/staging/w.txt" (ingestItem 2 9 "/staging/w.txt" 8))
        = keysQ [("/staging/w.txt", ingestItem 2 0 "/staging/w.txt" 5)]
    ∧ lookupQ (sweepTick 2 (fun _ => some 8) 2
          [("/staging/w.txt", ingestItem 2 0 "/staging/w.txt" 5)]).queue
          "/staging/w.txt"
        = some { ingestItem 2 0 "/staging/w.txt" 5 with
                   file_size := 8, next_poll := 2 + 2 } :=
  ⟨claim_C10_map_consistency.1 2 (fun _ => some 5) 0 []
      [("/staging/w.txt", ingestItem 2 0 "/staging/w.txt" 5)]
      ⟨"/staging/w.txt", "modified", false⟩ (by decide) rfl,
   claim_C10_map_consistency.2.1 2 (fun _ => none) 0 [] []
      ⟨"/staging/w.txt", "modified", false⟩ (by decide) rfl,
   claim_C10_map_consistency.2.2.1 2 (fun _ => some 5) 9
      [("/staging/w.txt", ingestItem 2 0 "/staging/w.txt" 5)] (by decide),
   claim_C10_map_consistency.2.2.2.1
      [("/staging/w.txt", ingestItem 2 0 "/staging/w.txt" 5)]
      "/staging/w.txt" (ingestItem 2 9 "/staging/w.txt" 8) rfl,
   claim_C10_map_consistency.2.2.2.2 2 (fun _ => some 8) 2
      [("/staging/w.txt", ingestItem 2 0 "/staging/w.txt" 5)]
      "/staging/w.txt" (ingestItem 2 0 "/staging/w.txt" 5) 8
      (by decide) rfl (by decide) (by decide) rfl (by decide)⟩

end DirectoryMonitor
